import Mathlib

set_option maxHeartbeats 1000000
set_option linter.unusedVariables false

deriving instance DecidableEq for Except

namespace AIGrammarChecker

/-- Observable side effects of the pipeline: progress-callback invocations
carrying (index, total, message), and sleeps.  Durations are modelled in
milliseconds (the Python source passes float seconds to `time.sleep`), so
the 1-second refresh pause is 1000 and the 0.5-second throttle is 500. -/
inductive Event where
  | progress : Nat → Nat → String → Event
  | sleep : Nat → Event
  deriving DecidableEq, Repr

/-- State threaded through the pipeline: the number of backend completion
invocations made so far, and the trace of observable events in order. -/
structure PipeState where
  calls : Nat
  trace : List Event
  deriving DecidableEq, Repr

/-- The initial pipeline state: no completion calls made, empty trace. -/
def PipeState.init : PipeState := { calls := 0, trace := [] }

/-- The litellm completion backend, abstracted as a function of the number of
completion calls made so far (so failure schedules can be expressed) and the
prompt; it returns the completion content, or an exception message. -/
def Backend : Type := Nat → String → Except String String

/-- An optional progress callback receives (index, total, message) and may
itself raise an exception, modelled by the `Except.error` result. -/
def Callback : Type := Nat → Nat → String → Except String Unit

/-- A result record: a Python dict in insertion order.  A value is `none`
for Python `None` and `some s` for the string `s`. -/
abbrev Row : Type := List (String × Option String)

/-- Configuration for a run, mirroring the keys `process_paragraphs` reads
from its `config` dict in src/utils/checker_core.py. -/
structure Config where
  language : String
  provider : String
  model : String
  api_key : String
  additional_checks : List String
  session_refresh_interval : Int
  max_retries : Int
  retry_delay : Nat
  deriving DecidableEq, Repr

/-- Python `str.strip()`: remove leading and trailing whitespace.  Defined
structurally over the character list so that concrete runs evaluate inside
the kernel. -/
def pyStrip (s : String) : String :=
  ⟨((s.data.dropWhile Char.isWhitespace).reverse.dropWhile Char.isWhitespace).reverse⟩

/-- Translation of `create_prompt` from src/utils/checker_core.py. -/
def create_prompt (text : String) (language : String) (check_type : String)
    (custom_requirement : String) : String :=
  if language = "中文" then
    if check_type = "grammar" then
      "请检查以下文本的语法错误，只需要指出语法问题并给出简洁的修改建议：\n\n文本：" ++ text ++
        "\n\n请用中文回答，格式如下：\n- 如果没有语法错误，请仅回答\"语法正确\"\n- 如果有语法错误，简洁地指出问题和建议\n"
    else
      "请对以下文本进行检查：" ++ custom_requirement ++ "\n\n文本：" ++ text ++
        "\n\n请用中文给出简洁的评价和建议：\n"
  else
    if check_type = "grammar" then
      "Please check the following text for grammar errors and provide concise suggestions:\n\nText: " ++
        text ++
        "\n\nPlease respond in English:\n- If there are no grammar errors, please only respond \"Grammar is correct\"\n- If there are grammar errors, briefly point out the issues and suggestions\n"
    else
      "Please check the following text for: " ++ custom_requirement ++ "\n\nText: " ++ text ++
        "\n\nPlease provide concise evaluation and suggestions in English:\n"

/-- The retry loop of `call_ai_api`: iterates over the Python
`range(max_retries)` list of attempt indices.  Each iteration invokes the
backend once; on success it returns the stripped content; on failure it
sleeps `retry_delay` and retries, unless `attempt < max_retries - 1` fails
(final attempt), in which case it returns the error-marker string.  Falling
off the end of the list returns `none` (Python falls off the function and
returns `None`). -/
def callAttempts (backend : Backend) (prompt : String) (max_retries : Int)
    (retry_delay : Nat) : List Nat → PipeState → Option String × PipeState
  | [], st => (none, st)
  | attempt :: rest, st =>
    let st1 : PipeState := { calls := st.calls + 1, trace := st.trace }
    match backend st.calls prompt with
    | Except.ok content => (some (pyStrip content), st1)
    | Except.error e =>
      if (attempt : Int) < max_retries - 1 then
        callAttempts backend prompt max_retries retry_delay rest
          { calls := st1.calls, trace := st1.trace ++ [Event.sleep retry_delay] }
      else
        (some ("API调用失败: " ++ e), st1)

/-- Translation of `call_ai_api` from src/utils/checker_core.py: raises
(`Except.error`) if the api key is empty (Python falsy string), otherwise
runs the retry loop over `range(max_retries)`.  The provider-specific key
assignment has no observable effect in this model. -/
def call_ai_api (backend : Backend) (prompt : String) (provider : String)
    (model : String) (api_key : String) (max_retries : Int) (retry_delay : Nat)
    (st : PipeState) : Except String (Option String) × PipeState :=
  if api_key = "" then
    (Except.error "API密钥不能为空", st)
  else
    let r := callAttempts backend prompt max_retries retry_delay
      (List.range max_retries.toNat) st
    (Except.ok r.1, r.2)

/-- The per-paragraph progress message built in `process_paragraphs`. -/
def progressMsg (i total : Nat) : String :=
  "处理第 " ++ toString (i + 1) ++ "/" ++ toString total ++ " 段..."

/-- The session-refresh progress message built in `process_paragraphs`. -/
def refreshMsg (i total : Nat) : String :=
  "刷新AI会话... 第 " ++ toString (i + 1) ++ "/" ++ toString total ++ " 段"

/-- The `if progress_callback: progress_callback(i, total, msg)` step: a
present callback is invoked (recorded in the trace) and may raise; an absent
callback does nothing. -/
def notifyCb (cb : Option Callback) (i total : Nat) (msg : String)
    (st : PipeState) : Except String Unit × PipeState :=
  match cb with
  | none => (Except.ok (), st)
  | some f =>
    (f i total msg, { st with trace := st.trace ++ [Event.progress i total msg] })

/-- The additional-checks loop of `process_paragraphs`: iterates over the
enumerated `additional_checks`; a requirement that is blank after stripping
is skipped (Python falsy string), any other requirement gets an "additional"
prompt built and the retry-wrapped call invoked, stored under the key
`额外检查_<j+1>` where `j` is the 0-based position in the declared list. -/
def addChecks (backend : Backend) (config : Config) (paragraph : String) :
    List (Nat × String) → Row → PipeState → Except String Row × PipeState
  | [], row, st => (Except.ok row, st)
  | (j, check) :: rest, row, st =>
    if pyStrip check = "" then
      addChecks backend config paragraph rest row st
    else
      match call_ai_api backend
          (create_prompt paragraph config.language "additional" check)
          config.provider config.model config.api_key config.max_retries
          config.retry_delay st with
      | (Except.ok v, st2) =>
        addChecks backend config paragraph rest
          (row ++ [("额外检查_" ++ toString (j + 1), v)]) st2
      | (Except.error e, st2) => (Except.error e, st2)

/-- The session-refresh pacing step of `process_paragraphs`: when
`i > 0 and interval and i % interval == 0` (Python truthiness: a zero
interval disables pacing), notify progress with the refresh message (an
exception from the callback propagates) and sleep 1 second. -/
def refreshStep (cb : Option Callback) (interval : Int) (i total : Nat)
    (st : PipeState) : Except String Unit × PipeState :=
  if 0 < i ∧ interval ≠ 0 ∧ (i : Int) % interval = 0 then
    match notifyCb cb i total (refreshMsg i total) st with
    | (Except.error e, st2) => (Except.error e, st2)
    | (Except.ok _, st2) =>
      (Except.ok (), { st2 with trace := st2.trace ++ [Event.sleep 1000] })
  else
    (Except.ok (), st)

/-- The main loop of `process_paragraphs`, processing the remaining
paragraphs starting at 0-based position `i`, with `acc` the records already
produced.  Each step: progress notification (an exception raised by the
callback propagates), session-refresh pacing, unconditional grammar check,
additional checks, appending the record, and an unconditional 0.5-second
inter-paragraph sleep. -/
def processLoop (backend : Backend) (cb : Option Callback) (config : Config)
    (total : Nat) : List String → Nat → List Row → PipeState →
    Except String (List Row) × PipeState
  | [], _, acc, st => (Except.ok acc, st)
  | paragraph :: rest, i, acc, st =>
    match notifyCb cb i total (progressMsg i total) st with
    | (Except.error e, st1) => (Except.error e, st1)
    | (Except.ok _, st1) =>
      match refreshStep cb config.session_refresh_interval i total st1 with
      | (Except.error e, st2) => (Except.error e, st2)
      | (Except.ok _, st2) =>
        match call_ai_api backend
            (create_prompt paragraph config.language "grammar" "")
            config.provider config.model config.api_key config.max_retries
            config.retry_delay st2 with
        | (Except.error e, st3) => (Except.error e, st3)
        | (Except.ok g, st3) =>
          match addChecks backend config paragraph config.additional_checks.enum
              [("原始文本", some paragraph), ("语法检查", g)] st3 with
          | (Except.error e, st4) => (Except.error e, st4)
          | (Except.ok row2, st4) =>
            processLoop backend cb config total rest (i + 1) (acc ++ [row2])
              { st4 with trace := st4.trace ++ [Event.sleep 500] }

/-- Translation of `process_paragraphs` from src/utils/checker_core.py. -/
def process_paragraphs (backend : Backend) (paragraphs : List String)
    (config : Config) (cb : Option Callback) (st : PipeState) :
    Except String (List Row) × PipeState :=
  processLoop backend cb config paragraphs.length paragraphs 0 [] st

/-- The additional-check column labels produced for a declared requirement
list: one label per entry that is non-blank after stripping, numbered by its
1-based ORIGINAL position in the declared list. -/
def addKeys (checks : List String) : List String :=
  (checks.enum.filter (fun jc => pyStrip jc.2 != "")).map
    (fun jc => "额外检查_" ++ toString (jc.1 + 1))

/-- A trace fragment consisting only of sleep events (no progress
notifications). -/
def sleepsOnly (d : List Event) : Prop := ∀ e ∈ d, ∃ n, e = Event.sleep n

section CallLemmas

variable (b : Backend) (p : String) (mr : Int) (rd : Nat)

theorem callAttempts_cons_ok {v : String} {st : PipeState}
    (hb : b st.calls p = Except.ok v) (attempt : Nat) (rest : List Nat) :
    callAttempts b p mr rd (attempt :: rest) st =
      (some (pyStrip v), { calls := st.calls + 1, trace := st.trace }) := by
  simp [callAttempts, hb]

theorem callAttempts_cons_error {e : String} {st : PipeState} {attempt : Nat}
    (hb : b st.calls p = Except.error e) (hlt : (attempt : Int) < mr - 1)
    (rest : List Nat) :
    callAttempts b p mr rd (attempt :: rest) st =
      callAttempts b p mr rd rest
        { calls := st.calls + 1, trace := st.trace ++ [Event.sleep rd] } := by
  simp [callAttempts, hb, hlt]

theorem callAttempts_cons_error_last {e : String} {st : PipeState} {attempt : Nat}
    (hb : b st.calls p = Except.error e) (hlt : ¬ (attempt : Int) < mr - 1)
    (rest : List Nat) :
    callAttempts b p mr rd (attempt :: rest) st =
      (some ("API调用失败: " ++ e), { calls := st.calls + 1, trace := st.trace }) := by
  simp [callAttempts, hb, hlt]

theorem callAttempts_fst_calls :
    ∀ (l : List Nat) (st st' : PipeState), st.calls = st'.calls →
      (callAttempts b p mr rd l st).1 = (callAttempts b p mr rd l st').1 ∧
      (callAttempts b p mr rd l st).2.calls = (callAttempts b p mr rd l st').2.calls := by
  intro l
  induction l with
  | nil => intro st st' h; simp [callAttempts, h]
  | cons a rest ih =>
    intro st st' h
    simp only [callAttempts, h]
    cases hb : b st'.calls p with
    | ok c => simp [h]
    | error e =>
      by_cases hlt : (a : Int) < mr - 1
      · simp only [hlt, if_true]
        exact ih _ _ (by simp [h])
      · simp [hlt, h]

theorem callAttempts_trace_ext :
    ∀ (l : List Nat) (st : PipeState), ∃ d,
      (callAttempts b p mr rd l st).2.trace = st.trace ++ d ∧ sleepsOnly d := by
  intro l
  induction l with
  | nil => intro st; exact ⟨[], by simp [callAttempts], by intro e he; cases he⟩
  | cons a rest ih =>
    intro st
    simp only [callAttempts]
    cases hb : b st.calls p with
    | ok c => exact ⟨[], by simp, by intro e he; cases he⟩
    | error e =>
      by_cases hlt : (a : Int) < mr - 1
      · simp only [hlt, if_true]
        obtain ⟨d, hd, hs⟩ := ih { calls := st.calls + 1, trace := st.trace ++ [Event.sleep rd] }
        refine ⟨Event.sleep rd :: d, ?_, ?_⟩
        · simp at hd; simp [hd]
        · intro x hx
          cases hx with
          | head => exact ⟨rd, rfl⟩
          | tail _ hx => exact hs x hx
      · exact ⟨[], by simp [hlt], by intro e he; cases he⟩

theorem callAttempts_fst_hb (hb : ∀ n n' q, b n q = b n' q) :
    ∀ (l : List Nat) (st st' : PipeState),
      (callAttempts b p mr rd l st).1 = (callAttempts b p mr rd l st').1 := by
  intro l
  induction l with
  | nil => intro st st'; simp [callAttempts]
  | cons a rest ih =>
    intro st st'
    simp only [callAttempts]
    rw [hb st.calls st'.calls p]
    cases hx : b st'.calls p with
    | ok c => simp
    | error e =>
      by_cases hlt : (a : Int) < mr - 1
      · simp only [hlt, if_true]; exact ih _ _
      · simp [hlt]

end CallLemmas

section AddLemmas

variable (b : Backend) (cfg : Config) (par : String)

theorem addChecks_fst_calls :
    ∀ (l : List (Nat × String)) (row : Row) (st st' : PipeState), st.calls = st'.calls →
      (addChecks b cfg par l row st).1 = (addChecks b cfg par l row st').1 ∧
      (addChecks b cfg par l row st).2.calls = (addChecks b cfg par l row st').2.calls := by
  intro l
  induction l with
  | nil => intro row st st' h; simp [addChecks, h]
  | cons jc rest ih =>
    obtain ⟨j, check⟩ := jc
    intro row st st' h
    simp only [addChecks]
    by_cases hblank : pyStrip check = ""
    · simp only [hblank, if_true]; exact ih row st st' h
    · simp only [hblank, if_false, call_ai_api]
      by_cases hk : cfg.api_key = ""
      · simp [hk, h]
      · simp only [hk, if_false]
        obtain ⟨h1, h2⟩ := callAttempts_fst_calls b
          (create_prompt par cfg.language "additional" check) cfg.max_retries
          cfg.retry_delay (List.range cfg.max_retries.toNat) st st' h
        rw [h1]
        exact ih _ _ _ h2

theorem addChecks_trace_ext :
    ∀ (l : List (Nat × String)) (row : Row) (st : PipeState), ∃ d,
      (addChecks b cfg par l row st).2.trace = st.trace ++ d ∧ sleepsOnly d := by
  intro l
  induction l with
  | nil => intro row st; exact ⟨[], by simp [addChecks], by intro e he; cases he⟩
  | cons jc rest ih =>
    obtain ⟨j, check⟩ := jc
    intro row st
    simp only [addChecks]
    by_cases hblank : pyStrip check = ""
    · simp only [hblank, if_true]; exact ih row st
    · simp only [hblank, if_false, call_ai_api]
      by_cases hk : cfg.api_key = ""
      · exact ⟨[], by simp [hk], by intro e he; cases he⟩
      · simp only [hk, if_false]
        obtain ⟨d1, hd1, hs1⟩ := callAttempts_trace_ext b
          (create_prompt par cfg.language "additional" check) cfg.max_retries
          cfg.retry_delay (List.range cfg.max_retries.toNat) st
        obtain ⟨d2, hd2, hs2⟩ := ih (row ++ [("额外检查_" ++ toString (j + 1),
          (callAttempts b (create_prompt par cfg.language "additional" check)
            cfg.max_retries cfg.retry_delay (List.range cfg.max_retries.toNat) st).1)])
          (callAttempts b (create_prompt par cfg.language "additional" check)
            cfg.max_retries cfg.retry_delay (List.range cfg.max_retries.toNat) st).2
        refine ⟨d1 ++ d2, ?_, ?_⟩
        · simp [hd2, hd1]
        · intro x hx
          rcases List.mem_append.1 hx with hx | hx
          · exact hs1 x hx
          · exact hs2 x hx

theorem addChecks_fst_hb (hb : ∀ n n' q, b n q = b n' q) :
    ∀ (l : List (Nat × String)) (row : Row) (st st' : PipeState),
      (addChecks b cfg par l row st).1 = (addChecks b cfg par l row st').1 := by
  intro l
  induction l with
  | nil => intro row st st'; simp [addChecks]
  | cons jc rest ih =>
    obtain ⟨j, check⟩ := jc
    intro row st st'
    simp only [addChecks]
    by_cases hblank : pyStrip check = ""
    · simp only [hblank, if_true]; exact ih row st st'
    · simp only [hblank, if_false, call_ai_api]
      by_cases hk : cfg.api_key = ""
      · simp [hk]
      · simp only [hk, if_false]
        rw [callAttempts_fst_hb b _ cfg.max_retries cfg.retry_delay hb
          (List.range cfg.max_retries.toNat) st st']
        exact ih _ _ _

theorem addChecks_ok_ext :
    ∀ (l : List (Nat × String)) (row : Row) (st : PipeState) (row2 : Row) (st2 : PipeState),
      addChecks b cfg par l row st = (Except.ok row2, st2) → ∃ ext, row2 = row ++ ext := by
  intro l
  induction l with
  | nil =>
    intro row st row2 st2 h
    simp [addChecks] at h
    exact ⟨[], by simp [h.1]⟩
  | cons jc rest ih =>
    obtain ⟨j, check⟩ := jc
    intro row st row2 st2 h
    simp only [addChecks] at h
    by_cases hblank : pyStrip check = ""
    · rw [if_pos hblank] at h; exact ih row st row2 st2 h
    · rw [if_neg hblank] at h
      simp only [call_ai_api] at h
      by_cases hk : cfg.api_key = ""
      · rw [if_pos hk] at h; simp at h
      · rw [if_neg hk] at h
        simp only [] at h
        obtain ⟨ext', hext'⟩ := ih _ _ _ _ h
        refine ⟨("额外检查_" ++ toString (j + 1),
          (callAttempts b (create_prompt par cfg.language "additional" check)
            cfg.max_retries cfg.retry_delay (List.range cfg.max_retries.toNat) st).1) :: ext', ?_⟩
        simp [hext']

theorem addChecks_shape (hk : cfg.api_key ≠ "") :
    ∀ (l : List (Nat × String)) (row : Row) (st : PipeState), ∃ ext st2,
      addChecks b cfg par l row st = (Except.ok (row ++ ext), st2) ∧
      ext.map Prod.fst = (l.filter (fun jc => pyStrip jc.2 != "")).map
        (fun jc => "额外检查_" ++ toString (jc.1 + 1)) := by
  intro l
  induction l with
  | nil => intro row st; exact ⟨[], st, by simp [addChecks], by simp⟩
  | cons jc rest ih =>
    obtain ⟨j, check⟩ := jc
    intro row st
    by_cases hblank : pyStrip check = ""
    · obtain ⟨ext, st2, heq, hmap⟩ := ih row st
      refine ⟨ext, st2, ?_, ?_⟩
      · simp only [addChecks, hblank, if_true]; exact heq
      · simp [List.filter, hblank, hmap]
    · obtain ⟨ext, st2, heq, hmap⟩ := ih (row ++ [("额外检查_" ++ toString (j + 1),
        (callAttempts b (create_prompt par cfg.language "additional" check)
          cfg.max_retries cfg.retry_delay (List.range cfg.max_retries.toNat) st).1)])
        (callAttempts b (create_prompt par cfg.language "additional" check)
          cfg.max_retries cfg.retry_delay (List.range cfg.max_retries.toNat) st).2
      refine ⟨("额外检查_" ++ toString (j + 1),
        (callAttempts b (create_prompt par cfg.language "additional" check)
          cfg.max_retries cfg.retry_delay (List.range cfg.max_retries.toNat) st).1) :: ext,
        st2, ?_, ?_⟩
      · simp only [addChecks, hblank, if_false, call_ai_api, hk]
        rw [heq]
        simp
      · have hb2 : (pyStrip check != "") = true := by simp [hblank]
        simp [List.filter_cons, hb2, hmap]

end AddLemmas

/-- With no callback, the refresh step never raises: it only (conditionally)
appends the 1-second pacing sleep. -/
theorem refreshStep_none (interval : Int) (i total : Nat) (st : PipeState) :
    refreshStep none interval i total st =
      (Except.ok (), if 0 < i ∧ interval ≠ 0 ∧ (i : Int) % interval = 0
        then { st with trace := st.trace ++ [Event.sleep 1000] } else st) := by
  simp only [refreshStep, notifyCb]
  split <;> rfl

/-- Shape of one produced result record: the paragraph under `原始文本`, a
grammar outcome under `语法检查`, then exactly the additional-check fields
whose keys are given by `addKeys`. -/
def RowShape (cfg : Config) (par : String) (row : Row) : Prop :=
  ∃ g ext, row = ("原始文本", some par) :: ("语法检查", g) :: ext ∧
    ext.map Prod.fst = addKeys cfg.additional_checks

theorem processLoop_none_shape (b : Backend) (cfg : Config) (hk : cfg.api_key ≠ "")
    (total : Nat) :
    ∀ (ps : List String) (i : Nat) (acc : List Row) (st : PipeState),
      ∃ rows st2,
        processLoop b none cfg total ps i acc st = (Except.ok (acc ++ rows), st2) ∧
        List.Forall₂ (RowShape cfg) ps rows := by
  intro ps
  induction ps with
  | nil => intro i acc st; exact ⟨[], st, by simp [processLoop], List.Forall₂.nil⟩
  | cons par rest ih =>
    intro i acc st
    simp only [processLoop, notifyCb, refreshStep_none]
    generalize (if 0 < i ∧ cfg.session_refresh_interval ≠ 0 ∧
      (i : Int) % cfg.session_refresh_interval = 0
      then { calls := st.calls, trace := st.trace ++ [Event.sleep 1000] } else st) = stR
    simp only [call_ai_api, hk, if_false]
    generalize hg : callAttempts b (create_prompt par cfg.language "grammar" "")
      cfg.max_retries cfg.retry_delay (List.range cfg.max_retries.toNat) stR = gp
    obtain ⟨g, st3⟩ := gp
    obtain ⟨ext, st4, heq, hmap⟩ := addChecks_shape b cfg par hk
      cfg.additional_checks.enum [("原始文本", some par), ("语法检查", g)] st3
    simp only [heq]
    obtain ⟨rows, st5, hrec, hall⟩ := ih (i + 1)
      (acc ++ [[("原始文本", some par), ("语法检查", g)] ++ ext])
      { calls := st4.calls, trace := st4.trace ++ [Event.sleep 500] }
    refine ⟨([("原始文本", some par), ("语法检查", g)] ++ ext) :: rows, st5, ?_, ?_⟩
    · rw [hrec]; simp
    · exact List.Forall₂.cons ⟨g, ext, rfl, by simpa [addKeys] using hmap⟩ hall

theorem call_ai_api_fst_calls (b : Backend) (p provider model api_key : String)
    (mr : Int) (rd : Nat) (st st' : PipeState) (h : st.calls = st'.calls) :
    (call_ai_api b p provider model api_key mr rd st).1 =
      (call_ai_api b p provider model api_key mr rd st').1 ∧
    (call_ai_api b p provider model api_key mr rd st).2.calls =
      (call_ai_api b p provider model api_key mr rd st').2.calls := by
  by_cases hk : api_key = ""
  · simp [call_ai_api, hk, h]
  · simp only [call_ai_api, hk, if_false]
    obtain ⟨h1, h2⟩ := callAttempts_fst_calls b p mr rd (List.range mr.toNat)
      st st' h
    exact ⟨by rw [h1], h2⟩

theorem call_ai_api_fst_hb (b : Backend) (hb : ∀ n n' q, b n q = b n' q)
    (p provider model api_key : String) (mr : Int) (rd : Nat)
    (st st' : PipeState) :
    (call_ai_api b p provider model api_key mr rd st).1 =
      (call_ai_api b p provider model api_key mr rd st').1 := by
  by_cases hk : api_key = ""
  · simp [call_ai_api, hk]
  · simp only [call_ai_api, hk, if_false]
    rw [callAttempts_fst_hb b p mr rd hb (List.range mr.toNat) st st']

theorem notifyCb_fst (cb : Option Callback) (i total : Nat) (msg : String)
    (st st' : PipeState) :
    (notifyCb cb i total msg st).1 = (notifyCb cb i total msg st').1 := by
  cases cb <;> rfl

theorem notifyCb_calls (cb : Option Callback) (i total : Nat) (msg : String)
    (st : PipeState) : (notifyCb cb i total msg st).2.calls = st.calls := by
  cases cb <;> rfl

theorem refreshStep_fst (cb : Option Callback) (interval : Int) (i total : Nat)
    (st st' : PipeState) :
    (refreshStep cb interval i total st).1 =
      (refreshStep cb interval i total st').1 := by
  cases cb with
  | none => simp only [refreshStep, notifyCb]; split <;> rfl
  | some f =>
    simp only [refreshStep, notifyCb]
    split
    · cases hv : f i total (refreshMsg i total) <;> simp [hv]
    · rfl

theorem refreshStep_calls (cb : Option Callback) (interval : Int)
    (i total : Nat) (st : PipeState) :
    (refreshStep cb interval i total st).2.calls = st.calls := by
  cases cb with
  | none => simp only [refreshStep, notifyCb]; split <;> rfl
  | some f =>
    simp only [refreshStep, notifyCb]
    split
    · cases hv : f i total (refreshMsg i total) <;> simp [hv]
    · rfl

/-- If two lists are pointwise related, every member of the right list is
related to some member of the left list. -/
theorem forall₂_mem_right {α β : Type} {R : α → β → Prop} :
    ∀ {l₁ : List α} {l₂ : List β}, List.Forall₂ R l₁ l₂ →
      ∀ y ∈ l₂, ∃ x, R x y := by
  intro l₁ l₂ h
  induction h with
  | nil => intro y hy; cases hy
  | cons hr _ ih =>
    intro y hy
    cases hy with
    | head => exact ⟨_, hr⟩
    | tail _ hy => exact ih y hy

theorem processLoop_fst_hb (b : Backend) (hb : ∀ n n' q, b n q = b n' q)
    (cb : Option Callback) (cfg : Config) (total : Nat) :
    ∀ (ps : List String) (i : Nat) (acc : List Row) (st st' : PipeState),
      (processLoop b cb cfg total ps i acc st).1 =
        (processLoop b cb cfg total ps i acc st').1 := by
  intro ps
  induction ps with
  | nil => intro i acc st st'; simp [processLoop]
  | cons par rest ih =>
    intro i acc st st'
    simp only [processLoop]
    rcases hn : notifyCb cb i total (progressMsg i total) st with ⟨u1, st1⟩
    rcases hn' : notifyCb cb i total (progressMsg i total) st' with ⟨u1', st1'⟩
    have hu : u1 = u1' := by
      have hx := notifyCb_fst cb i total (progressMsg i total) st st'
      rw [hn, hn'] at hx
      exact hx
    subst hu
    cases u1 with
    | error e => rfl
    | ok u =>
      dsimp only
      rcases hr : refreshStep cb cfg.session_refresh_interval i total st1
        with ⟨u2, stR⟩
      rcases hr' : refreshStep cb cfg.session_refresh_interval i total st1'
        with ⟨u2', stR'⟩
      have hu2 : u2 = u2' := by
        have hx := refreshStep_fst cb cfg.session_refresh_interval i total st1 st1'
        rw [hr, hr'] at hx
        exact hx
      subst hu2
      cases u2 with
      | error e => rfl
      | ok u2v =>
        dsimp only
        rcases hc : call_ai_api b (create_prompt par cfg.language "grammar" "")
          cfg.provider cfg.model cfg.api_key cfg.max_retries cfg.retry_delay stR
          with ⟨u3, st3⟩
        rcases hc' : call_ai_api b (create_prompt par cfg.language "grammar" "")
          cfg.provider cfg.model cfg.api_key cfg.max_retries cfg.retry_delay stR'
          with ⟨u3', st3'⟩
        have hu3 : u3 = u3' := by
          have hx := call_ai_api_fst_hb b hb
            (create_prompt par cfg.language "grammar" "") cfg.provider
            cfg.model cfg.api_key cfg.max_retries cfg.retry_delay stR stR'
          rw [hc, hc'] at hx
          exact hx
        subst hu3
        cases u3 with
        | error e => rfl
        | ok g =>
          dsimp only
          rcases ha : addChecks b cfg par cfg.additional_checks.enum
            [("原始文本", some par), ("语法检查", g)] st3 with ⟨u4, st4⟩
          rcases ha' : addChecks b cfg par cfg.additional_checks.enum
            [("原始文本", some par), ("语法检查", g)] st3' with ⟨u4', st4'⟩
          have hu4 : u4 = u4' := by
            have hx := addChecks_fst_hb b cfg par hb cfg.additional_checks.enum
              [("原始文本", some par), ("语法检查", g)] st3 st3'
            rw [ha, ha'] at hx
            exact hx
          subst hu4
          cases u4 with
          | error e => rfl
          | ok row2 =>
            dsimp only
            exact ih (i + 1) (acc ++ [row2]) _ _

theorem progressMsg_head (i total : Nat) :
    (progressMsg i total).data.head? = some '处' := rfl

theorem refreshMsg_head (i total : Nat) :
    (refreshMsg i total).data.head? = some '刷' := rfl

theorem progressMsg_ne_refreshMsg (i total j total' : Nat) :
    progressMsg i total ≠ refreshMsg j total' := by
  intro h
  have hx : (progressMsg i total).data.head? = (refreshMsg j total').data.head? := by
    rw [h]
  rw [progressMsg_head, refreshMsg_head] at hx
  simp at hx

theorem refreshMsg_ne_progressMsg (i total j total' : Nat) :
    refreshMsg i total ≠ progressMsg j total' :=
  fun h => progressMsg_ne_refreshMsg j total' i total h.symm

theorem refreshStep_some (f : Callback) (hf : ∀ a c m, f a c m = Except.ok ())
    (interval : Int) (i total : Nat) (st : PipeState) :
    refreshStep (some f) interval i total st =
      (Except.ok (),
       if 0 < i ∧ interval ≠ 0 ∧ (i : Int) % interval = 0 then
         { calls := st.calls,
           trace := st.trace ++
             [Event.progress i total (refreshMsg i total), Event.sleep 1000] }
       else st) := by
  simp only [refreshStep, notifyCb, hf]
  split
  · simp
  · rfl

/-- A callback position (absent, or a callback that never raises). -/
def cbOk (cb : Option Callback) : Prop :=
  ∀ i t m st, (notifyCb cb i t m st).1 = Except.ok ()

theorem refreshStep_fst_ok {cb : Option Callback} (hcb : cbOk cb)
    (interval : Int) (i total : Nat) (st : PipeState) :
    (refreshStep cb interval i total st).1 = Except.ok () := by
  simp only [refreshStep]
  split
  · rcases hx : notifyCb cb i total (refreshMsg i total) st with ⟨u, st2⟩
    have hu := hcb i total (refreshMsg i total) st
    rw [hx] at hu
    dsimp at hu
    subst hu
    rfl
  · rfl

theorem processLoop_cbOk_calls (b : Backend) {cb1 cb2 : Option Callback}
    (hcb1 : cbOk cb1) (hcb2 : cbOk cb2) (cfg : Config) (total : Nat) :
    ∀ (ps : List String) (i : Nat) (acc : List Row) (st st' : PipeState),
      st.calls = st'.calls →
      (processLoop b cb1 cfg total ps i acc st).1 =
        (processLoop b cb2 cfg total ps i acc st').1 ∧
      (processLoop b cb1 cfg total ps i acc st).2.calls =
        (processLoop b cb2 cfg total ps i acc st').2.calls := by
  intro ps
  induction ps with
  | nil => intro i acc st st' h; simp [processLoop, h]
  | cons par rest ih =>
    intro i acc st st' h
    simp only [processLoop]
    rcases hn : notifyCb cb1 i total (progressMsg i total) st with ⟨u1, st1⟩
    rcases hn' : notifyCb cb2 i total (progressMsg i total) st' with ⟨u1', st1'⟩
    have hu1 : u1 = Except.ok () := by
      have hx := hcb1 i total (progressMsg i total) st
      rw [hn] at hx
      exact hx
    have hu1' : u1' = Except.ok () := by
      have hx := hcb2 i total (progressMsg i total) st'
      rw [hn'] at hx
      exact hx
    subst hu1
    subst hu1'
    dsimp only
    have hc1 : st1.calls = st.calls := by
      have hx := notifyCb_calls cb1 i total (progressMsg i total) st
      rw [hn] at hx
      exact hx
    have hc1' : st1'.calls = st'.calls := by
      have hx := notifyCb_calls cb2 i total (progressMsg i total) st'
      rw [hn'] at hx
      exact hx
    rcases hr : refreshStep cb1 cfg.session_refresh_interval i total st1
      with ⟨u2, stR⟩
    rcases hr' : refreshStep cb2 cfg.session_refresh_interval i total st1'
      with ⟨u2', stR'⟩
    have hu2 : u2 = Except.ok () := by
      have hx := refreshStep_fst_ok hcb1 cfg.session_refresh_interval i total st1
      rw [hr] at hx
      exact hx
    have hu2' : u2' = Except.ok () := by
      have hx := refreshStep_fst_ok hcb2 cfg.session_refresh_interval i total st1'
      rw [hr'] at hx
      exact hx
    subst hu2
    subst hu2'
    dsimp only
    have hcR : stR.calls = st1.calls := by
      have hx := refreshStep_calls cb1 cfg.session_refresh_interval i total st1
      rw [hr] at hx
      exact hx
    have hcR' : stR'.calls = st1'.calls := by
      have hx := refreshStep_calls cb2 cfg.session_refresh_interval i total st1'
      rw [hr'] at hx
      exact hx
    have hRR : stR.calls = stR'.calls := by
      rw [hcR, hcR', hc1, hc1', h]
    rcases hc : call_ai_api b (create_prompt par cfg.language "grammar" "")
      cfg.provider cfg.model cfg.api_key cfg.max_retries cfg.retry_delay stR
      with ⟨u3, st3⟩
    rcases hc' : call_ai_api b (create_prompt par cfg.language "grammar" "")
      cfg.provider cfg.model cfg.api_key cfg.max_retries cfg.retry_delay stR'
      with ⟨u3', st3'⟩
    obtain ⟨hf3, hk3⟩ := call_ai_api_fst_calls b
      (create_prompt par cfg.language "grammar" "") cfg.provider cfg.model
      cfg.api_key cfg.max_retries cfg.retry_delay stR stR' hRR
    rw [hc, hc'] at hf3
    rw [hc, hc'] at hk3
    dsimp at hf3 hk3
    subst hf3
    cases u3 with
    | error e => exact ⟨rfl, hk3⟩
    | ok g =>
      dsimp only
      rcases ha : addChecks b cfg par cfg.additional_checks.enum
        [("原始文本", some par), ("语法检查", g)] st3 with ⟨u4, st4⟩
      rcases ha' : addChecks b cfg par cfg.additional_checks.enum
        [("原始文本", some par), ("语法检查", g)] st3' with ⟨u4', st4'⟩
      obtain ⟨hf4, hk4⟩ := addChecks_fst_calls b cfg par
        cfg.additional_checks.enum [("原始文本", some par), ("语法检查", g)]
        st3 st3' hk3
      rw [ha, ha'] at hf4
      rw [ha, ha'] at hk4
      dsimp at hf4 hk4
      subst hf4
      cases u4 with
      | error e => exact ⟨rfl, hk4⟩
      | ok row2 =>
        dsimp only
        exact ih (i + 1) (acc ++ [row2])
          { calls := st4.calls, trace := st4.trace ++ [Event.sleep 500] }
          { calls := st4'.calls, trace := st4'.trace ++ [Event.sleep 500] }
          hk4

/-- A fixed valid configuration used by the concrete witnesses: non-empty api
key, additional checks `["", "check logic", "  "]`, refresh interval 3. -/
def cfgW : Config :=
  { language := "English", provider := "openai", model := "gpt-4o-mini",
    api_key := "sk-test", additional_checks := ["", "check logic", "  "],
    session_refresh_interval := 3, max_retries := 3, retry_delay := 1000 }

/-- A deterministic always-succeeding backend used by the witnesses. -/
def okB : Backend := fun _ _ => Except.ok "fine"

theorem callAttempts_all_fail (b : Backend) (p : String) (mr : Int) (rd : Nat)
    (err : Nat → String) (hfail : ∀ n, b n p = Except.error (err n)) :
    ∀ (n a : Nat) (st : PipeState), 0 < n → (a : Int) + n = mr →
      callAttempts b p mr rd (List.range' a n) st =
        (some ("API调用失败: " ++ err (st.calls + n - 1)),
         { calls := st.calls + n,
           trace := st.trace ++ List.replicate (n - 1) (Event.sleep rd) }) := by
  intro n
  induction n with
  | zero => intro a st h; omega
  | succ m ih =>
    intro a st _ hsum
    cases m with
    | zero =>
      have hlt : ¬ ((a : Int) < mr - 1) := by omega
      rw [show List.range' a 1 = [a] from rfl,
        callAttempts_cons_error_last b p mr rd (hfail st.calls) hlt []]
      simp
    | succ k =>
      have hlt : (a : Int) < mr - 1 := by
        push_cast at hsum ⊢
        omega
      have hrec := ih (a + 1)
        { calls := st.calls + 1, trace := st.trace ++ [Event.sleep rd] }
        (by omega) (by push_cast at hsum ⊢; omega)
      rw [show List.range' a (k + 1 + 1) = a :: List.range' (a + 1) (k + 1)
        from rfl,
        callAttempts_cons_error b p mr rd (hfail st.calls) hlt _, hrec]
      have h1 : st.calls + 1 + (k + 1) - 1 = st.calls + (k + 1 + 1) - 1 := by omega
      have h2 : st.calls + 1 + (k + 1) = st.calls + (k + 1 + 1) := by omega
      simp [h1, h2, List.replicate_succ]

theorem callAttempts_retry_success (b : Backend) (p : String) (mr : Int)
    (rd : Nat) (v : String) :
    ∀ (k a n : Nat) (st : PipeState), k < n → (a : Int) + n = mr →
      (∀ j, j < k → ∃ e, b (st.calls + j) p = Except.error e) →
      b (st.calls + k) p = Except.ok v →
      callAttempts b p mr rd (List.range' a n) st =
        (some (pyStrip v),
         { calls := st.calls + k + 1,
           trace := st.trace ++ List.replicate k (Event.sleep rd) }) := by
  intro k
  induction k with
  | zero =>
    intro a n st hkn hsum hfail hsucc
    cases n with
    | zero => omega
    | succ m =>
      rw [show List.range' a (m + 1) = a :: List.range' (a + 1) m from rfl,
        callAttempts_cons_ok b p mr rd (by simpa using hsucc) a _]
      simp
  | succ k ih =>
    intro a n st hkn hsum hfail hsucc
    cases n with
    | zero => omega
    | succ m =>
      obtain ⟨e, he⟩ := hfail 0 (by omega)
      have hm1 : 1 ≤ m := by omega
      have hlt : (a : Int) < mr - 1 := by push_cast at hsum; omega
      rw [show List.range' a (m + 1) = a :: List.range' (a + 1) m from rfl,
        callAttempts_cons_error b p mr rd (by simpa using he) hlt _]
      have hrec := ih (a + 1) m
        { calls := st.calls + 1, trace := st.trace ++ [Event.sleep rd] }
        (by omega) (by push_cast at hsum ⊢; omega)
        (by
          intro j hj
          obtain ⟨e2, he2⟩ := hfail (j + 1) (by omega)
          exact ⟨e2, by
            show b (st.calls + 1 + j) p = Except.error e2
            rw [show st.calls + 1 + j = st.calls + (j + 1) from by omega]
            exact he2⟩)
        (by
          show b (st.calls + 1 + k) p = Except.ok v
          rw [show st.calls + 1 + k = st.calls + (k + 1) from by omega]
          exact hsucc)
      rw [hrec]
      have h2 : st.calls + 1 + k + 1 = st.calls + (k + 1) + 1 := by omega
      simp [h2, List.replicate_succ]

/-- A deterministic always-failing backend used by the witnesses. -/
def failB : Backend := fun _ _ => Except.error "boom"

/-- The witness configuration without additional checks. -/
def cfgF : Config := { cfgW with additional_checks := [] }

/-- C3: if the backend fails on every attempt, `call_ai_api` does not raise:
with `max_retries = mr ≥ 1` it invokes the backend exactly `mr` times (the
call counter grows by `mr`), sleeps `retry_delay` between attempts but not
after the last, and returns the stand-in string made of the fixed failure
marker `API调用失败: ` plus the last error's message; and (second conjunct) a
concrete two-paragraph run with `max_retries = 3` makes exactly 3 calls per
paragraph, stores the stand-in string in the `语法检查` field, and still
produces one record per paragraph. -/
theorem call_ai_api_all_fail (b : Backend) (p provider model api_key : String)
    (mr : Int) (rd : Nat) (st : PipeState) (err : Nat → String)
    (hfail : ∀ n q, b n q = Except.error (err n))
    (hk : api_key ≠ "") (hmr : 1 ≤ mr) :
    (call_ai_api b p provider model api_key mr rd st =
      (Except.ok (some ("API调用失败: " ++ err (st.calls + mr.toNat - 1))),
       { calls := st.calls + mr.toNat,
         trace := st.trace ++ List.replicate (mr.toNat - 1) (Event.sleep rd) })) ∧
    process_paragraphs failB ["p1", "p2"] cfgF none PipeState.init =
      (Except.ok [[("原始文本", some "p1"), ("语法检查", some "API调用失败: boom")],
        [("原始文本", some "p2"), ("语法检查", some "API调用失败: boom")]],
       { calls := 6,
         trace := [Event.sleep 1000, Event.sleep 1000, Event.sleep 500,
           Event.sleep 1000, Event.sleep 1000, Event.sleep 500] }) := by
  constructor
  · have hpos : (0 : Int) < mr := by omega
    have hn : ((mr.toNat : Int)) = mr := Int.toNat_of_nonneg (le_of_lt hpos)
    simp only [call_ai_api, hk, if_false]
    rw [List.range_eq_range',
      callAttempts_all_fail b p mr rd err (fun n => hfail n p) mr.toNat 0 st
        (by omega) (by omega)]
  · decide

/-- Witness for C3's general conjunct at a concrete always-failing backend
with `max_retries = 3`: exactly 3 invocations, 2 retry sleeps, and the
stand-in string carrying the last error message. -/
theorem call_ai_api_all_fail_witness :
    (("sk-test" : String) ≠ "" ∧ (1 : Int) ≤ 3) ∧
    ((call_ai_api failB "some prompt" "openai" "gpt-4o-mini" "sk-test" 3 1000
      PipeState.init =
      (Except.ok (some ("API调用失败: " ++ "boom")),
       { calls := PipeState.init.calls + (3 : Int).toNat,
         trace := PipeState.init.trace ++
           List.replicate ((3 : Int).toNat - 1) (Event.sleep 1000) })) ∧
    process_paragraphs failB ["p1", "p2"] cfgF none PipeState.init =
      (Except.ok [[("原始文本", some "p1"), ("语法检查", some "API调用失败: boom")],
        [("原始文本", some "p2"), ("语法检查", some "API调用失败: boom")]],
       { calls := 6,
         trace := [Event.sleep 1000, Event.sleep 1000, Event.sleep 500,
           Event.sleep 1000, Event.sleep 1000, Event.sleep 500] })) :=
  ⟨⟨by decide, by omega⟩,
    call_ai_api_all_fail failB "some prompt" "openai" "gpt-4o-mini" "sk-test"
      3 1000 PipeState.init (fun _ => "boom") (fun n q => rfl) (by decide)
      (by omega)⟩

/-- C5: for a non-empty api key and a backend that fails the first `k`
attempts (`k < max_retries`) and then succeeds with value `v`, `call_ai_api`
returns the (stripped) success value, the backend is invoked exactly `k + 1`
times (the call counter grows by `k + 1`, hence at most `max_retries`), and
exactly `k` constant `retry_delay` sleeps occur — one between consecutive
failed attempts, none after the successful final attempt. -/
theorem call_ai_api_retry_success (b : Backend)
    (p provider model api_key : String) (mr : Int) (rd : Nat) (v : String)
    (st : PipeState) (k : Nat) (hk : api_key ≠ "") (hkm : (k : Int) < mr)
    (hfail : ∀ j, j < k → ∃ e, b (st.calls + j) p = Except.error e)
    (hsucc : b (st.calls + k) p = Except.ok v) :
    call_ai_api b p provider model api_key mr rd st =
      (Except.ok (some (pyStrip v)),
       { calls := st.calls + k + 1,
         trace := st.trace ++ List.replicate k (Event.sleep rd) }) := by
  have hpos : (0 : Int) < mr := by omega
  have hn : ((mr.toNat : Int)) = mr := Int.toNat_of_nonneg (le_of_lt hpos)
  have hk2 : k < mr.toNat := by omega
  simp only [call_ai_api, hk, if_false]
  rw [List.range_eq_range',
    callAttempts_retry_success b p mr rd v k 0 mr.toNat st hk2 (by omega)
      hfail hsucc]

/-- A backend that fails on its first two invocations and succeeds from the
third on, used as the C5 witness. -/
def flakyB : Backend := fun n _ =>
  if n < 2 then Except.error ("fail " ++ toString n) else Except.ok "all good"

/-- Witness for C5: with `max_retries = 3` and a backend failing the first
2 attempts, the third attempt's value is returned, 3 invocations and 2
retry sleeps occur. -/
theorem call_ai_api_retry_success_witness :
    (("sk-test" : String) ≠ "" ∧ ((2 : Nat) : Int) < 3 ∧
      (∀ j, j < 2 → ∃ e, flakyB (PipeState.init.calls + j) "q" = Except.error e) ∧
      flakyB (PipeState.init.calls + 2) "q" = Except.ok "all good") ∧
    call_ai_api flakyB "q" "openai" "gpt-4o-mini" "sk-test" 3 1000
      PipeState.init =
      (Except.ok (some (pyStrip "all good")),
       { calls := PipeState.init.calls + 2 + 1,
         trace := PipeState.init.trace ++
           List.replicate 2 (Event.sleep 1000) }) :=
  ⟨⟨by decide, by omega, fun j hj => ⟨"fail " ++ toString j, by
      interval_cases j <;> rfl⟩, rfl⟩,
    call_ai_api_retry_success flakyB "q" "openai" "gpt-4o-mini" "sk-test" 3
      1000 "all good" PipeState.init 2 (by decide) (by omega)
      (fun j hj => ⟨"fail " ++ toString j, by interval_cases j <;> rfl⟩) rfl⟩

/-- C1: for every paragraph list (including the empty one) and every config
with a non-empty api key, `process_paragraphs` succeeds and returns exactly
one record per paragraph in input order: record `k` carries paragraph `k` in
its `原始文本` field, no paragraph is skipped, duplicated or reordered, and
the empty input yields the empty result list. -/
theorem process_paragraphs_length_order (b : Backend) (ps : List String)
    (cfg : Config) (st : PipeState) (hk : cfg.api_key ≠ "") :
    ∃ rs st2, process_paragraphs b ps cfg none st = (Except.ok rs, st2) ∧
      rs.length = ps.length ∧
      (∀ k (h1 : k < ps.length) (h2 : k < rs.length),
        (rs.get ⟨k, h2⟩).lookup "原始文本" = some (some (ps.get ⟨k, h1⟩))) ∧
      (ps = [] → rs = []) := by
  obtain ⟨rows, st2, heq, hall⟩ :=
    processLoop_none_shape b cfg hk ps.length ps 0 [] st
  refine ⟨rows, st2, by simpa [process_paragraphs] using heq,
    hall.length_eq.symm, ?_, ?_⟩
  · intro k h1 h2
    have hget := (List.forall₂_iff_get.1 hall).2 k h1 h2
    obtain ⟨g, ext, hrow, -⟩ := hget
    rw [hrow]
    simp [List.lookup]
  · intro h
    subst h
    cases hall
    rfl

/-- Witness for C1 at a concrete two-paragraph input. -/
theorem process_paragraphs_length_order_witness :
    cfgW.api_key ≠ "" ∧
    (∃ rs st2,
      process_paragraphs okB ["first paragraph", "second"] cfgW none
        PipeState.init = (Except.ok rs, st2) ∧
      rs.length = (["first paragraph", "second"] : List String).length ∧
      (∀ k (h1 : k < (["first paragraph", "second"] : List String).length)
        (h2 : k < rs.length),
        (rs.get ⟨k, h2⟩).lookup "原始文本" =
          some (some ((["first paragraph", "second"] : List String).get ⟨k, h1⟩))) ∧
      ((["first paragraph", "second"] : List String) = [] → rs = [])) :=
  ⟨by decide,
    process_paragraphs_length_order okB ["first paragraph", "second"] cfgW
      PipeState.init (by decide)⟩

/-- C2 counterexample: with additional checks `["", "check logic", "  "]`,
the single produced additional-check field is keyed `额外检查_2` (the 1-based
ORIGINAL position of "check logic"), and no field keyed `额外检查_1` exists,
contradicting the claim that the field is labeled with a separate sequential
index 1. -/
theorem process_paragraphs_addlabel_counterexample :
    (process_paragraphs okB ["hello"] cfgW none PipeState.init).1 =
      Except.ok [[("原始文本", some "hello"), ("语法检查", some "fine"),
        ("额外检查_2", some "fine")]] ∧
    ([(("原始文本" : String), some "hello"), ("语法检查", some "fine"),
        ("额外检查_2", some "fine")] : Row).lookup "额外检查_1" = none ∧
    ([(("原始文本" : String), some "hello"), ("语法检查", some "fine"),
        ("额外检查_2", some "fine")] : Row).lookup "额外检查_2" =
      some (some "fine") := by
  refine ⟨?_, by decide, by decide⟩
  decide

/-- C2 (amended): additional-check outcomes are produced exactly for the
entries that are non-blank after stripping (blank entries produce no field),
but each outcome is keyed by the 1-based ORIGINAL position of its entry in
the declared list (enumerate index + 1), not by a separate index incremented
only for non-blank entries: every record's key list is exactly
`原始文本 :: 语法检查 :: addKeys additional_checks`; in particular, for
`["", "check logic", "  "]` each record has exactly one additional-check
field and it is keyed `额外检查_2`. -/
theorem process_paragraphs_addkeys (b : Backend) (ps : List String)
    (cfg : Config) (st : PipeState) (hk : cfg.api_key ≠ "") :
    ∃ rs st2, process_paragraphs b ps cfg none st = (Except.ok rs, st2) ∧
      ∀ r ∈ rs, r.map Prod.fst =
        "原始文本" :: "语法检查" :: addKeys cfg.additional_checks := by
  obtain ⟨rows, st2, heq, hall⟩ :=
    processLoop_none_shape b cfg hk ps.length ps 0 [] st
  refine ⟨rows, st2, by simpa [process_paragraphs] using heq, ?_⟩
  intro r hr
  obtain ⟨p, g, ext, hrow, hmap⟩ := forall₂_mem_right hall r hr
  rw [hrow]
  simp [hmap]

/-- Witness for the amended C2 at the spec's example configuration. -/
theorem process_paragraphs_addkeys_witness :
    cfgW.api_key ≠ "" ∧
    (∃ rs st2,
      process_paragraphs okB ["hello"] cfgW none PipeState.init =
        (Except.ok rs, st2) ∧
      ∀ r ∈ rs, r.map Prod.fst =
        "原始文本" :: "语法检查" :: addKeys cfgW.additional_checks) :=
  ⟨by decide, process_paragraphs_addkeys okB ["hello"] cfgW PipeState.init (by decide)⟩

/-- C4: with an empty api key, `process_paragraphs` on a non-empty input
raises the configuration error (`API密钥不能为空`) before any backend
completion call: the returned state is the input state unchanged, so the
backend invocation count is unchanged (zero new calls). -/
theorem process_paragraphs_empty_key (b : Backend) (p : String)
    (ps : List String) (cfg : Config) (st : PipeState) (hk : cfg.api_key = "") :
    process_paragraphs b (p :: ps) cfg none st =
      (Except.error "API密钥不能为空", st) ∧
    (process_paragraphs b (p :: ps) cfg none st).2.calls = st.calls := by
  have h : process_paragraphs b (p :: ps) cfg none st =
      (Except.error "API密钥不能为空", st) := by
    simp [process_paragraphs, processLoop, notifyCb, refreshStep_none,
      call_ai_api, hk]
  exact ⟨h, by rw [h]⟩

/-- Witness for C4: a concrete run with an empty credential makes zero
backend calls and raises. -/
theorem process_paragraphs_empty_key_witness :
    ({ cfgW with api_key := "" } : Config).api_key = "" ∧
    (process_paragraphs okB ["x"] { cfgW with api_key := "" } none
        PipeState.init = (Except.error "API密钥不能为空", PipeState.init) ∧
      (process_paragraphs okB ["x"] { cfgW with api_key := "" } none
        PipeState.init).2.calls = PipeState.init.calls) :=
  ⟨rfl, process_paragraphs_empty_key okB "x" [] { cfgW with api_key := "" }
    PipeState.init rfl⟩

theorem processLoop_ok_grammar (b : Backend) (cb : Option Callback)
    (cfg : Config) (total : Nat) :
    ∀ (ps : List String) (i : Nat) (acc : List Row) (st : PipeState)
      (rs : List Row) (st2 : PipeState),
      processLoop b cb cfg total ps i acc st = (Except.ok rs, st2) →
      (∀ r ∈ acc, (r.lookup "语法检查").isSome) →
      ∀ r ∈ rs, (r.lookup "语法检查").isSome := by
  intro ps
  induction ps with
  | nil =>
    intro i acc st rs st2 h hacc
    simp only [processLoop, Prod.mk.injEq, Except.ok.injEq] at h
    rw [← h.1]
    exact hacc
  | cons par rest ih =>
    intro i acc st rs st2 h hacc
    simp only [processLoop] at h
    split at h
    · simp at h
    · split at h
      · simp at h
      · split at h
        · simp at h
        · split at h
          · simp at h
          · rename_i row2 st4 heq
            obtain ⟨ext, hext⟩ := addChecks_ok_ext b cfg par _ _ _ _ _ heq
            refine ih (i + 1) (acc ++ [row2]) _ rs st2 h ?_
            intro r hr
            rcases List.mem_append.1 hr with hr | hr
            · exact hacc r hr
            · rw [List.mem_singleton] at hr
              subst hr
              rw [hext]
              simp [List.lookup]

/-- C8: whenever `process_paragraphs` returns a result list — for any
backend, any callback, any config (with or without additional checks, blank
or not), any paragraphs — every returned record contains the grammar-check
field `语法检查`: the grammar check runs unconditionally for every
paragraph. -/
theorem process_paragraphs_grammar_present (b : Backend) (cb : Option Callback)
    (ps : List String) (cfg : Config) (st : PipeState) (rs : List Row)
    (st2 : PipeState)
    (h : process_paragraphs b ps cfg cb st = (Except.ok rs, st2)) :
    ∀ r ∈ rs, (r.lookup "语法检查").isSome :=
  processLoop_ok_grammar b cb cfg ps.length ps 0 [] st rs st2 h
    (by intro r hr; cases hr)

/-- Witness for C8 at a concrete run whose single record carries the
grammar field. -/
theorem process_paragraphs_grammar_present_witness :
    (process_paragraphs okB ["hello"] cfgW none PipeState.init =
      (Except.ok [[("原始文本", some "hello"), ("语法检查", some "fine"),
        ("额外检查_2", some "fine")]],
       { calls := 2, trace := [Event.sleep 500] })) ∧
    (∀ r ∈ ([[(("原始文本" : String), some "hello"), ("语法检查", some "fine"),
        ("额外检查_2", some "fine")]] : List Row),
      (r.lookup "语法检查").isSome) :=
  ⟨by decide,
    process_paragraphs_grammar_present okB none ["hello"] cfgW PipeState.init
      [[("原始文本", some "hello"), ("语法检查", some "fine"),
        ("额外检查_2", some "fine")]]
      { calls := 2, trace := [Event.sleep 500] } (by decide)⟩

/-- C7 counterexample: a progress callback that raises does abort
`process_paragraphs` and does change the outcome: with a throwing callback
the run returns an error and no records, while the same run with no callback
returns the records — the two outcomes differ. -/
theorem process_paragraphs_callback_throw_counterexample :
    (process_paragraphs okB ["hello"] cfgW
        (some (fun _ _ _ => Except.error "callback boom")) PipeState.init).1 =
      Except.error "callback boom" ∧
    (process_paragraphs okB ["hello"] cfgW none PipeState.init).1 =
      Except.ok [[("原始文本", some "hello"), ("语法检查", some "fine"),
        ("额外检查_2", some "fine")]] ∧
    (process_paragraphs okB ["hello"] cfgW
        (some (fun _ _ _ => Except.error "callback boom")) PipeState.init).1 ≠
      (process_paragraphs okB ["hello"] cfgW none PipeState.init).1 := by
  exact ⟨by decide, by decide, by decide⟩

/-- C7 (amended): the progress callback is best-effort only insofar as it is
optional: an absent or never-raising callback leaves the result records and
the backend call count unchanged, but a callback that raises aborts
`process_paragraphs` — the exception propagates out of the very first
notification (before any backend call of that run) and an error is returned
instead of the records. -/
theorem process_paragraphs_callback_contract :
    (∀ (b : Backend) (ps : List String) (cfg : Config) (st : PipeState)
      (f : Callback), (∀ a c m, f a c m = Except.ok ()) →
      (process_paragraphs b ps cfg (some f) st).1 =
        (process_paragraphs b ps cfg none st).1 ∧
      (process_paragraphs b ps cfg (some f) st).2.calls =
        (process_paragraphs b ps cfg none st).2.calls) ∧
    (∀ (b : Backend) (p : String) (rest : List String) (cfg : Config)
      (st : PipeState) (f : Callback) (msg : String),
      (∀ a c m, f a c m = Except.error msg) →
      process_paragraphs b (p :: rest) cfg (some f) st =
        (Except.error msg,
         { calls := st.calls,
           trace := st.trace ++
             [Event.progress 0 (rest.length + 1)
               (progressMsg 0 (rest.length + 1))] })) := by
  constructor
  · intro b ps cfg st f hf
    exact @processLoop_cbOk_calls b (some f) none
      (fun i t m st0 => by simp [notifyCb, hf])
      (fun i t m st0 => rfl) cfg ps.length ps 0 [] st st rfl
  · intro b p rest cfg st f msg hf
    simp [process_paragraphs, processLoop, notifyCb, hf]

/-- Witness for the amended C7: with a concrete never-raising callback the
outcome equals the no-callback outcome, and with a concrete throwing
callback the run aborts with that exception. -/
theorem process_paragraphs_callback_contract_witness :
    ((process_paragraphs okB ["hello"] cfgW
        (some (fun _ _ _ => Except.ok ())) PipeState.init).1 =
      (process_paragraphs okB ["hello"] cfgW none PipeState.init).1 ∧
     (process_paragraphs okB ["hello"] cfgW
        (some (fun _ _ _ => Except.ok ())) PipeState.init).2.calls =
      (process_paragraphs okB ["hello"] cfgW none PipeState.init).2.calls) ∧
    process_paragraphs okB ["hello"] cfgW
        (some (fun _ _ _ => Except.error "cb boom")) PipeState.init =
      (Except.error "cb boom",
       { calls := PipeState.init.calls,
         trace := PipeState.init.trace ++
           [Event.progress 0 (([] : List String).length + 1)
             (progressMsg 0 (([] : List String).length + 1))] }) :=
  ⟨process_paragraphs_callback_contract.1 okB ["hello"] cfgW PipeState.init
      (fun _ _ _ => Except.ok ()) (fun a c m => rfl),
    process_paragraphs_callback_contract.2 okB "hello" [] cfgW PipeState.init
      (fun _ _ _ => Except.error "cb boom") "cb boom" (fun a c m => rfl)⟩

/-- C9: for a backend whose completion depends only on the prompt (a
deterministic mock), running `process_paragraphs` a second time with
identical paragraphs, config and callback — the second run starting from the
state in which the first run finished — produces identical output. -/
theorem process_paragraphs_deterministic (b : Backend) (ps : List String)
    (cfg : Config) (cb : Option Callback) (st : PipeState)
    (hb : ∀ n n' q, b n q = b n' q) :
    (process_paragraphs b ps cfg cb
        ((process_paragraphs b ps cfg cb st).2)).1 =
      (process_paragraphs b ps cfg cb st).1 :=
  processLoop_fst_hb b hb cb cfg ps.length ps 0 [] _ st

/-- Witness for C9 at a concrete deterministic backend: the second run's
records equal the first run's. -/
theorem process_paragraphs_deterministic_witness :
    (∀ n n' q, okB n q = okB n' q) ∧
    (process_paragraphs okB ["a", "b"] cfgW none
        ((process_paragraphs okB ["a", "b"] cfgW none PipeState.init).2)).1 =
      (process_paragraphs okB ["a", "b"] cfgW none PipeState.init).1 :=
  ⟨fun n n' q => rfl,
    process_paragraphs_deterministic okB ["a", "b"] cfgW none PipeState.init
      (fun n n' q => rfl)⟩

/-- C10: when `max_retries ≤ 0` the retry loop body never executes and
`call_ai_api` returns Python `None` (modelled `none`) instead of a string,
for any prompt and non-empty api key; the state is untouched. -/
theorem call_ai_api_nonpos_retries (b : Backend)
    (prompt provider model api_key : String) (mr : Int) (rd : Nat)
    (st : PipeState) (hmr : mr ≤ 0) (hk : api_key ≠ "") :
    call_ai_api b prompt provider model api_key mr rd st =
      (Except.ok none, st) := by
  have h0 : mr.toNat = 0 := Int.toNat_of_nonpos hmr
  simp [call_ai_api, hk, h0, callAttempts]

/-- Witness for C10 at `max_retries = 0`. -/
theorem call_ai_api_nonpos_retries_witness :
    ((0 : Int) ≤ 0 ∧ ("sk-test" : String) ≠ "") ∧
    call_ai_api okB "some prompt" "openai" "gpt-4o-mini" "sk-test" 0 1000
      PipeState.init = (Except.ok none, PipeState.init) :=
  ⟨⟨le_refl 0, by decide⟩,
    call_ai_api_nonpos_retries okB "some prompt" "openai" "gpt-4o-mini"
      "sk-test" 0 1000 PipeState.init (le_refl 0) (by decide)⟩

theorem call_ai_api_no_error {b : Backend} {p provider model api_key : String}
    {mr : Int} {rd : Nat} {st : PipeState} {e : String} {st3 : PipeState}
    (hk : api_key ≠ "")
    (heq : call_ai_api b p provider model api_key mr rd st =
      (Except.error e, st3)) : False := by
  simp [call_ai_api, hk] at heq

theorem addChecks_no_error {b : Backend} {cfg : Config} {par : String}
    {l : List (Nat × String)} {row : Row} {st : PipeState} {e : String}
    {st4 : PipeState} (hk : cfg.api_key ≠ "")
    (heq : addChecks b cfg par l row st = (Except.error e, st4)) : False := by
  obtain ⟨ext, st5, heq2, -⟩ := addChecks_shape b cfg par hk l row st
  rw [heq2] at heq
  simp at heq

theorem call_ai_api_trace_ext {b : Backend} {p provider model api_key : String}
    {mr : Int} {rd : Nat} {st : PipeState} {u : Except String (Option String)}
    {st3 : PipeState}
    (heq : call_ai_api b p provider model api_key mr rd st = (u, st3)) :
    ∃ d, st3.trace = st.trace ++ d ∧ sleepsOnly d := by
  by_cases hk : api_key = ""
  · simp [call_ai_api, hk] at heq
    exact ⟨[], by simp [← heq.2], by intro e he; cases he⟩
  · simp only [call_ai_api, hk, if_false] at heq
    obtain ⟨d, hd, hs⟩ := callAttempts_trace_ext b p mr rd
      (List.range mr.toNat) st
    have h2 : (callAttempts b p mr rd (List.range mr.toNat) st).2 = st3 :=
      congrArg Prod.snd heq
    exact ⟨d, by rw [← h2]; exact hd, hs⟩

theorem addChecks_trace_ext₂ {b : Backend} {cfg : Config} {par : String}
    {l : List (Nat × String)} {row : Row} {st : PipeState}
    {u : Except String Row} {st4 : PipeState}
    (heq : addChecks b cfg par l row st = (u, st4)) :
    ∃ d, st4.trace = st.trace ++ d ∧ sleepsOnly d := by
  obtain ⟨d, hd, hs⟩ := addChecks_trace_ext b cfg par l row st
  have h2 : (addChecks b cfg par l row st).2 = st4 := congrArg Prod.snd heq
  exact ⟨d, by rw [← h2]; exact hd, hs⟩

theorem processLoop_refresh_iff (b : Backend) (f : Callback)
    (hf : ∀ a c m, f a c m = Except.ok ()) (cfg : Config)
    (hk : cfg.api_key ≠ "") (total : Nat) :
    ∀ (ps : List String) (i : Nat) (acc : List Row) (st : PipeState) (k : Nat),
      (Event.progress k total (refreshMsg k total) ∈
        (processLoop b (some f) cfg total ps i acc st).2.trace) ↔
      (Event.progress k total (refreshMsg k total) ∈ st.trace ∨
        (i ≤ k ∧ k < i + ps.length ∧ 0 < k ∧
          cfg.session_refresh_interval ≠ 0 ∧
          (k : Int) % cfg.session_refresh_interval = 0)) := by
  intro ps
  induction ps with
  | nil =>
    intro i acc st k
    simp only [processLoop, List.length_nil]
    constructor
    · intro h
      exact Or.inl h
    · rintro (h | ⟨h1, h2, -⟩)
      · exact h
      · exact absurd h2 (by omega)
  | cons par rest ih =>
    intro i acc st k
    simp only [processLoop, notifyCb, hf]
    rw [refreshStep_some f hf]
    by_cases hcond : 0 < i ∧ cfg.session_refresh_interval ≠ 0 ∧
        (i : Int) % cfg.session_refresh_interval = 0
    · rw [if_pos hcond]
      split
      · rename_i e st2 heq
        rw [Prod.mk.injEq] at heq
        exact absurd heq.1 (by simp)
      · rename_i a st2 heq
        rw [Prod.mk.injEq] at heq
        obtain ⟨-, h2⟩ := heq
        subst h2
        split
        · rename_i e st3 heq
          exact (call_ai_api_no_error hk heq).elim
        · rename_i g st3 heq
          split
          · rename_i e st4 heq2
            exact (addChecks_no_error hk heq2).elim
          · rename_i row2 st4 heq2
            rw [ih (i + 1) (acc ++ [row2])
              { calls := st4.calls, trace := st4.trace ++ [Event.sleep 500] } k]
            obtain ⟨d1, hd1, hs1⟩ := call_ai_api_trace_ext heq
            obtain ⟨d2, hd2, hs2⟩ := addChecks_trace_ext₂ heq2
            dsimp only at hd1
            dsimp only
            rw [hd2, hd1]
            have hne1 : Event.progress k total (refreshMsg k total) ≠
                Event.progress i total (progressMsg i total) := by
              intro hx
              injection hx with hx1 hx2 hx3
              exact refreshMsg_ne_progressMsg k total i total hx3
            have hiff : (Event.progress k total (refreshMsg k total) =
                Event.progress i total (refreshMsg i total)) ↔ k = i := by
              constructor
              · intro hx
                injection hx with hx1 hx2 hx3
              · intro hx
                subst hx
                rfl
            have hnd1 : Event.progress k total (refreshMsg k total) ∉ d1 := by
              intro hx
              obtain ⟨n, hn⟩ := hs1 _ hx
              exact Event.noConfusion hn
            have hnd2 : Event.progress k total (refreshMsg k total) ∉ d2 := by
              intro hx
              obtain ⟨n, hn⟩ := hs2 _ hx
              exact Event.noConfusion hn
            have hnsleep : ∀ n : Nat,
                Event.progress k total (refreshMsg k total) ≠ Event.sleep n :=
              fun n hx => Event.noConfusion hx
            simp only [List.mem_append, List.mem_cons, List.mem_singleton,
              List.length_cons, hne1, hiff, hnd1, hnd2, hnsleep,
              List.not_mem_nil, or_false, false_or]
            constructor
            · rintro ((hx | hx) | ⟨h1, h2, h3, h4, h5⟩)
              · exact Or.inl hx
              · subst hx
                exact Or.inr ⟨le_refl _, by omega, hcond.1, hcond.2.1,
                  hcond.2.2⟩
              · exact Or.inr ⟨by omega, by omega, h3, h4, h5⟩
            · rintro (hx | ⟨h1, h2, h3, h4, h5⟩)
              · exact Or.inl (Or.inl hx)
              · by_cases hki : k = i
                · exact Or.inl (Or.inr hki)
                · exact Or.inr ⟨by omega, by omega, h3, h4, h5⟩

    · rw [if_neg hcond]
      split
      · rename_i e st2 heq
        rw [Prod.mk.injEq] at heq
        exact absurd heq.1 (by simp)
      · rename_i a st2 heq
        rw [Prod.mk.injEq] at heq
        obtain ⟨-, h2⟩ := heq
        subst h2
        split
        · rename_i e st3 heq
          exact (call_ai_api_no_error hk heq).elim
        · rename_i g st3 heq
          split
          · rename_i e st4 heq2
            exact (addChecks_no_error hk heq2).elim
          · rename_i row2 st4 heq2
            rw [ih (i + 1) (acc ++ [row2])
              { calls := st4.calls, trace := st4.trace ++ [Event.sleep 500] } k]
            obtain ⟨d1, hd1, hs1⟩ := call_ai_api_trace_ext heq
            obtain ⟨d2, hd2, hs2⟩ := addChecks_trace_ext₂ heq2
            dsimp only at hd1
            dsimp only
            rw [hd2, hd1]
            have hne1 : Event.progress k total (refreshMsg k total) ≠
                Event.progress i total (progressMsg i total) := by
              intro hx
              injection hx with hx1 hx2 hx3
              exact refreshMsg_ne_progressMsg k total i total hx3
            have hnd1 : Event.progress k total (refreshMsg k total) ∉ d1 := by
              intro hx
              obtain ⟨n, hn⟩ := hs1 _ hx
              exact Event.noConfusion hn
            have hnd2 : Event.progress k total (refreshMsg k total) ∉ d2 := by
              intro hx
              obtain ⟨n, hn⟩ := hs2 _ hx
              exact Event.noConfusion hn
            have hnsleep : ∀ n : Nat,
                Event.progress k total (refreshMsg k total) ≠ Event.sleep n :=
              fun n hx => Event.noConfusion hx
            simp only [List.mem_append, List.mem_cons, List.mem_singleton,
              List.length_cons, hne1, hnd1, hnd2, hnsleep,
              List.not_mem_nil, or_false, false_or]
            constructor
            · rintro (hx | ⟨h1, h2x, h3, h4, h5⟩)
              · exact Or.inl hx
              · exact Or.inr ⟨by omega, by omega, h3, h4, h5⟩
            · rintro (hx | ⟨h1, h2x, h3, h4, h5⟩)
              · exact Or.inl hx
              · by_cases hki : k = i
                · subst hki
                  exact absurd ⟨h3, h4, h5⟩ hcond
                · exact Or.inr ⟨by omega, by omega, h3, h4, h5⟩

/-- A progress callback that never raises, used by the C6/C7 witnesses. -/
def goodCb : Callback := fun _ _ _ => Except.ok ()

/-- C6: with a non-throwing progress callback present, a non-empty api key
and an initially empty trace, the session-refresh notification for 0-based
position `k` appears in the final trace exactly when `k` is a processed
position, `k > 0`, the configured interval is truthy (nonzero — a zero
interval disables refresh pacing entirely), and `k mod interval == 0`; and
(second conjunct) with interval 3 and 7 paragraphs the refresh notification
fires exactly twice, at positions 3 and 6. -/
theorem process_paragraphs_refresh_iff (b : Backend) (ps : List String)
    (cfg : Config) (st : PipeState) (f : Callback)
    (hf : ∀ a c m, f a c m = Except.ok ()) (hk : cfg.api_key ≠ "")
    (htr : st.trace = []) (k : Nat) :
    ((Event.progress k ps.length (refreshMsg k ps.length) ∈
      (process_paragraphs b ps cfg (some f) st).2.trace) ↔
    (k < ps.length ∧ 0 < k ∧ cfg.session_refresh_interval ≠ 0 ∧
      (k : Int) % cfg.session_refresh_interval = 0)) ∧
    ((process_paragraphs okB ["a", "b", "c", "d", "e", "f", "g"] cfgW
        (some goodCb) PipeState.init).2.trace.filterMap
      (fun e => match e with
        | Event.progress a t m =>
          if m = refreshMsg a t then some a else none
        | Event.sleep _ => none)) = [3, 6] := by
  constructor
  · have h := processLoop_refresh_iff b f hf cfg hk ps.length ps 0 [] st k
    rw [htr] at h
    rw [process_paragraphs]
    rw [h]
    simp
  · decide

/-- Witness for C6 at interval 3, seven paragraphs and position 3 (a firing
position). -/
theorem process_paragraphs_refresh_iff_witness :
    ((∀ a c m, goodCb a c m = Except.ok ()) ∧ cfgW.api_key ≠ "" ∧
      PipeState.init.trace = []) ∧
    (((Event.progress 3 (["a", "b", "c", "d", "e", "f", "g"] : List String).length
        (refreshMsg 3 (["a", "b", "c", "d", "e", "f", "g"] : List String).length) ∈
      (process_paragraphs okB ["a", "b", "c", "d", "e", "f", "g"] cfgW
        (some goodCb) PipeState.init).2.trace) ↔
    (3 < (["a", "b", "c", "d", "e", "f", "g"] : List String).length ∧ 0 < 3 ∧
      cfgW.session_refresh_interval ≠ 0 ∧
      (3 : Int) % cfgW.session_refresh_interval = 0)) ∧
    ((process_paragraphs okB ["a", "b", "c", "d", "e", "f", "g"] cfgW
        (some goodCb) PipeState.init).2.trace.filterMap
      (fun e => match e with
        | Event.progress a t m =>
          if m = refreshMsg a t then some a else none
        | Event.sleep _ => none)) = [3, 6]) :=
  ⟨⟨fun a c m => rfl, by decide, rfl⟩,
    process_paragraphs_refresh_iff okB ["a", "b", "c", "d", "e", "f", "g"]
      cfgW PipeState.init goodCb (fun a c m => rfl) (by decide) rfl 3⟩

end AIGrammarChecker
